import Mathlib

/-!
Verification development for the process-engine core
(`src/process-instance.js`): a shallow embedding of the runtime data
model (Node, ProcessInstance, the engine pool) and of the token
propagation algorithm (`Node.prototype.execute` / `complete`), together
with theorems about the spec's claims.

Conventions of the embedding:
* JS objects keyed by task id (`nodePool`) become association lists
  (`List NodeRT`) with lookup by the first matching key.
* Mutation becomes explicit state passing on the `St` structure, which
  also records the externally observable behaviour: the list of emitted
  events (`trace`) and the number of persistence writes (`saves`).
* The asynchronous `.done(...)` chains of bluebird promises run
  sequentially in source order (persist, then emit), matching the
  single-threaded scheduling model of the engine.
* `Node.prototype.complete` recursively executes successor nodes; the
  recursion is made total with an explicit `fuel` argument.  Every
  theorem about a completion step is stated at `Nat.succ fuel`, i.e.
  with enough fuel for the step itself.
-/

namespace ProcEngine

/-- Instance status, from `ProcessInstance.STATUS`
(`{NEW, RUNNING, WAITING, COMPLETED, FAILED}`). -/
inductive Status where
  | new
  | running
  | waiting
  | completed
  | failed
deriving DecidableEq, Repr

/-- Observable lifecycle events emitted on the instance:
`before(task)`, `after(task)`, `end()`. -/
inductive Event where
  | before (tid : Nat)
  | after (tid : Nat)
  | endEv
deriving DecidableEq, Repr

/-- The instance variables map (string keys to JSON-ish values; values are
represented by integers, which is enough for the claims). -/
abbrev Vars : Type := List (String × Int)

/-- A JS `Error` value handed to `complete(err)`.  Any such object is
truthy, so `Option ErrV` models the `if (err)` check: `some e` is a
non-null error. -/
structure ErrV where
  msg : String
deriving DecidableEq, Repr

/-- A directed flow of the definition graph: references the source and
target tasks (by id, the integer index into the definition's task list)
and, for flows out of a decision, a guard predicate over the instance
variables. For ordinary flows the guard is constantly `true`. -/
structure Flow where
  fromId : Nat
  toId : Nat
  condition : Vars → Bool

/-- A task of the process definition. -/
structure Task where
  id : Nat
  name : String
  type : String
  incomingFlows : List Flow
  outgoingFlows : List Flow

/-- The frozen definition graph; `tasks` is indexed positionally by task
id (`def.tasks[0]` is the start task), `variables` are the definition's
default variables. -/
structure ProcessDefinition where
  tasks : List Task
  vars : Vars

/-- Positional lookup `def.tasks[i]` of a task by its id. -/
def taskOf (pd : ProcessDefinition) (tid : Nat) : Task :=
  pd.tasks.getD tid { id := tid, name := "", type := "", incomingFlows := [], outgoingFlows := [] }

/-- The runtime data of one `Node`: the referenced task id and the
mutable `incomingFlowCompletedNumber` counter (initially 0 in the
constructor). -/
structure NodeRT where
  taskId : Nat
  incomingFlowCompletedNumber : Nat
deriving DecidableEq, Repr

/-- Node behaviour variants dispatched through the task-type registry. -/
inductive NodeKind where
  | base
  | service
  | decision
deriving DecidableEq, Repr

/-- Modelled from the spec: the task-type registry of
`process-engine.js` (§4.1), which is not under `src/`.  `start-task` and
`end-task` map to the base `Node`, `service-task` to the suspending
service node (§4.3), `decision` to the guard-evaluating decision node
(§4.4); unregistered types fall back to the base `Node`
(`ProcessInstance.prototype.createNode`). -/
def nodeKind (ty : String) : NodeKind :=
  if ty == "service-task" then NodeKind.service
  else if ty == "decision" then NodeKind.decision
  else NodeKind.base

/-- The serialized form of one node, from `Node.prototype.serialize`:
`{processInstance, incomingFlowCompletedNumber, task}`. -/
structure PNode where
  processInstance : Option Nat
  incomingFlowCompletedNumber : Nat
  task : Nat
deriving DecidableEq, Repr

/-- The persisted instance document, from
`ProcessInstance.prototype.serialize`:
`{_id, id, def, status, nodePool, variables, error}`. -/
structure PEntity where
  _id : Option Nat
  id : Option Nat
  defRef : Option Nat
  status : Status
  nodePool : List PNode
  vars : Vars
  error : Option ErrV
deriving DecidableEq, Repr

/-- The mutable state of one `ProcessInstance` together with its
externally observable behaviour: `trace` is the sequence of emitted
lifecycle events, `saves` counts the persistence writes issued. -/
structure St where
  iid : Option Nat
  pid : Option Nat
  defId : Option Nat
  status : Status
  vars : Vars
  error : Option ErrV
  nodePool : List NodeRT
  trace : List Event
  saves : Nat
deriving DecidableEq, Repr

/-- Lookup `nodePool[tid]` of a live node by task id. -/
def poolLookup (pool : List NodeRT) (tid : Nat) : Option NodeRT :=
  pool.find? (fun n => n.taskId == tid)

/-- Store an updated node back under its key (JS object in-place
mutation of `nodePool[n.taskId]`); appends when the key is absent. -/
def poolSet : List NodeRT → NodeRT → List NodeRT
  | [], n => [n]
  | m :: rest, n =>
      if m.taskId == n.taskId then n :: rest else m :: poolSet rest n

/-- Deletion `delete nodePool[tid]` (line 74). -/
def poolRemove (pool : List NodeRT) (tid : Nat) : List NodeRT :=
  pool.filter (fun n => !(n.taskId == tid))

/-- The `incomingFlowCompletedNumber` recorded in the pool for `tid`
(0 when no node exists yet, matching the `Node` constructor). -/
def counterOf (pool : List NodeRT) (tid : Nat) : Nat :=
  match poolLookup pool tid with
  | some n => n.incomingFlowCompletedNumber
  | none => 0

/-- One inbound arrival on task `tid` (lines 81-89 of the source):
take the successor node from the pool when present, otherwise construct
a fresh one (`instance.createNode`, counter 0) and insert it; then
increment its `incomingFlowCompletedNumber`. -/
def arrive (pool : List NodeRT) (tid : Nat) : List NodeRT :=
  match poolLookup pool tid with
  | some n =>
      poolSet pool { n with incomingFlowCompletedNumber := n.incomingFlowCompletedNumber + 1 }
  | none =>
      pool ++ [{ taskId := tid, incomingFlowCompletedNumber := 1 }]

/-- From `Node.prototype.canExecuteNode` (lines 58-60):
`incomingFlowCompletedNumber === task.incomingFlows.length`. -/
def canExecuteNode (pd : ProcessDefinition) (n : NodeRT) : Bool :=
  n.incomingFlowCompletedNumber == (taskOf pd n.taskId).incomingFlows.length

/-- From `canFollowOutgoingFlow(flow)`: the base `Node` (line 49) returns
`true`.  The decision node class is not under `src/`; its override is
Modelled from the spec (§4.4): it evaluates the flow's guard predicate
against the instance variables.  Dispatch is by the completing node's
task type. -/
def canFollowOutgoingFlow (pd : ProcessDefinition) (tid : Nat) (vars : Vars) (f : Flow) : Bool :=
  match nodeKind (taskOf pd tid).type with
  | NodeKind.decision => f.condition vars
  | _ => true

/-- Emission `this.processInstance.emit(e)` — record an observable event. -/
def emit (st : St) (e : Event) : St :=
  { st with trace := st.trace ++ [e] }

/-- From `ProcessInstance.prototype.save`: one write through the instance
collection; an insert (no `_id` yet) assigns the store id. -/
def save (st : St) : St :=
  { st with
      saves := st.saves + 1,
      pid := match st.pid with | some i => some i | none => some 1 }

/-- From `ProcessInstance.prototype.changeStatus` (lines 244-248): set
`status`, assign `error` (to `undefined` when the argument is omitted,
i.e. `none`), then persist. -/
def changeStatus (st : St) (s : Status) (e : Option ErrV) : St :=
  save { st with status := s, error := e }

/-- Lines 71-74 of `Node.prototype.complete`, the part before the
outgoing-flow loop: replace the variables when supplied (`_.clone`
deep copy is the identity in a pure embedding), emit `after(task)`,
remove this node from the pool. -/
def completeCore (st : St) (tid : Nat) (vars : Option Vars) : St :=
  let st1 := match vars with
    | some v => { st with vars := v }
    | none => st
  let st2 := emit st1 (Event.after tid)
  { st2 with nodePool := poolRemove st2.nodePool tid }

/-- From `Node.prototype.execute` (lines 32-35), parameterized by the
completion continuation `K`: emit `before(task)`, then run
`executeInternal(complete)`.  The base (and decision) `executeInternal`
calls `complete` immediately; the service-task override is Modelled
from the spec (§4.3): it transitions the instance to WAITING and
persists, retaining the continuation for a later `completeTask`. -/
def executeWith (K : St → Nat → St) (pd : ProcessDefinition) (st : St) (tid : Nat) : St :=
  let st1 := emit st (Event.before tid)
  match nodeKind (taskOf pd tid).type with
  | NodeKind.service => changeStatus st1 Status.waiting none
  | _ => K st1 tid

/-- One iteration of the outgoing-flow loop (lines 77-100),
parameterized by the completion continuation `K` used by successor
execution: skip when `canFollowOutgoingFlow` is false; otherwise look up
or create the successor node, increment its counter, and either execute
it (when its join condition holds) or, if the instance has been
suspended meanwhile, persist the join-partial state. -/
def followFlowWith (K : St → Nat → St) (pd : ProcessDefinition) (curTid : Nat)
    (s : St) (f : Flow) : St :=
  if canFollowOutgoingFlow pd curTid s.vars f then
    let pool1 := arrive s.nodePool f.toId
    let node := (poolLookup pool1 f.toId).getD
      { taskId := f.toId, incomingFlowCompletedNumber := 1 }
    let s1 := { s with nodePool := pool1 }
    if canExecuteNode pd node then
      executeWith K pd s1 f.toId
    else if s1.status == Status.waiting then save s1
    else s1
  else s

/-- From `Node.prototype.complete` (lines 65-107), with `fuel` bounding the
depth of synchronous tail-propagation.  On a (truthy) error: status
FAILED with the error, persist, emit `end`, return.  Otherwise: the
core step, then the outgoing-flow loop in definition order, then — when
the completed task's type is `end-task` — status COMPLETED, persist,
emit `end`. -/
def completeF : Nat → ProcessDefinition → St → Nat → Option ErrV → Option Vars → St
  | 0, _, st, _, _, _ => st
  | Nat.succ fuel, pd, st, tid, err, vars =>
    match err with
    | some e => emit (changeStatus st Status.failed (some e)) Event.endEv
    | none =>
      let st3 := completeCore st tid vars
      let st4 := (taskOf pd tid).outgoingFlows.foldl
        (followFlowWith (fun s t => completeF fuel pd s t none none) pd tid) st3
      if (taskOf pd tid).type == "end-task" then
        emit (changeStatus st4 Status.completed none) Event.endEv
      else st4

/-- The completion continuation `this.complete.bind(this)` (line 34)
retained for (and invoked by) successor execution, at the given fuel. -/
def completeK (fuel : Nat) (pd : ProcessDefinition) : St → Nat → St :=
  fun s t => completeF fuel pd s t none none

/-- Execution `Node.prototype.execute` at a given propagation fuel. -/
def executeF (fuel : Nat) (pd : ProcessDefinition) (st : St) (tid : Nat) : St :=
  executeWith (completeK fuel pd) pd st tid

/-- One iteration of the outgoing-flow loop at a given fuel. -/
def followFlow (fuel : Nat) (pd : ProcessDefinition) (curTid : Nat) (s : St) (f : Flow) : St :=
  followFlowWith (completeK fuel pd) pd curTid s f

/-- From `ProcessInstance.prototype._start` (lines 217-223): seed the
variables (argument, else the definition defaults), transition to
RUNNING (persisting), then construct a base `Node` on `def.tasks[0]`
(note: always the base class, and never inserted into `nodePool`) and
execute it. -/
def startF (fuel : Nat) (pd : ProcessDefinition) (v : Option Vars) (st : St) : St :=
  let st1 := { st with vars := v.getD pd.vars }
  let st2 := changeStatus st1 Status.running none
  let st3 := emit st2 (Event.before (taskOf pd 0).id)
  completeF fuel pd st3 (taskOf pd 0).id none none

/-- From `ProcessInstance.prototype.serialize` (lines 263-282) together with
`Node.prototype.serialize` (lines 109-116). -/
def serializeInst (st : St) : PEntity :=
  { _id := st.pid,
    id := st.iid,
    defRef := st.defId,
    status := st.status,
    nodePool := st.nodePool.map (fun n =>
      { processInstance := st.iid,
        incomingFlowCompletedNumber := n.incomingFlowCompletedNumber,
        task := n.taskId }),
    vars := st.vars,
    error := st.error }

/-- From `ProcessInstance.deserialize` (lines 287-301) together with the
static `Node.deserialize` (lines 127-134): construct a fresh instance
from the loaded definition, restore `id`, `status`, `variables`,
`error` (the constructor leaves `_id` unset and `deserialize` never
restores it), then rebuild each pooled node via `instance.createNode`
— whose constructor sets `incomingFlowCompletedNumber = 0` — followed
by the base `node.deserialize()` (line 118), which restores nothing. -/
def deserializeInst (pd : ProcessDefinition) (e : PEntity) : St :=
  { iid := e.id,
    pid := none,
    defId := e.defRef,
    status := e.status,
    vars := e.vars,
    error := e.error,
    nodePool := e.nodePool.map (fun p =>
      { taskId := (taskOf pd p.task).id, incomingFlowCompletedNumber := 0 }),
    trace := [],
    saves := 0 }

/-- A live instance as seen by the engine's `processPool` (only the
fields `clearPool` consults). -/
structure PoolInst where
  id : Nat
  status : Status
deriving DecidableEq, Repr

/-- From `engineAPI.clearPool` (lines 174-179): delete from the live pool
every instance whose status is WAITING or COMPLETED. -/
def clearPool (pool : List PoolInst) : List PoolInst :=
  pool.filter (fun inst =>
    !(inst.status == Status.waiting || inst.status == Status.completed))

/-- An always-true flow from task `a` to task `b`. -/
def flowTrue (a b : Nat) : Flow :=
  { fromId := a, toId := b, condition := fun _ => true }

/-- A never-followable guarded flow from task `a` to task `b`. -/
def flowFalse (a b : Nat) : Flow :=
  { fromId := a, toId := b, condition := fun _ => false }

/-- A freshly constructed instance (the `ProcessInstance` constructor,
lines 186-196), registered in the engine pool with id 1. -/
def st0c : St :=
  { iid := some 1, pid := none, defId := some 1, status := Status.new,
    vars := [], error := none, nodePool := [], trace := [], saves := 0 }

/-- Linear definition `start → svc (service-task) → done (end-task)`. -/
def pdLin : ProcessDefinition :=
  { tasks :=
      [ { id := 0, name := "start", type := "start-task",
          incomingFlows := [], outgoingFlows := [flowTrue 0 1] },
        { id := 1, name := "svc", type := "service-task",
          incomingFlows := [flowTrue 0 1], outgoingFlows := [flowTrue 1 2] },
        { id := 2, name := "done", type := "end-task",
          incomingFlows := [flowTrue 1 2], outgoingFlows := [] } ],
    vars := [] }

/-- Branching definition `start → {svc (service-task), done (end-task)}`:
the service branch suspends while the other branch completes the
instance. -/
def pdSvc : ProcessDefinition :=
  { tasks :=
      [ { id := 0, name := "start", type := "start-task",
          incomingFlows := [], outgoingFlows := [flowTrue 0 1, flowTrue 0 2] },
        { id := 1, name := "svc", type := "service-task",
          incomingFlows := [flowTrue 0 1], outgoingFlows := [] },
        { id := 2, name := "done", type := "end-task",
          incomingFlows := [flowTrue 0 2], outgoingFlows := [] } ],
    vars := [] }

/-- Definition with a decision whose only outgoing flow has a false
guard. -/
def pdDec : ProcessDefinition :=
  { tasks :=
      [ { id := 0, name := "start", type := "start-task",
          incomingFlows := [], outgoingFlows := [flowTrue 0 1] },
        { id := 1, name := "decide", type := "decision",
          incomingFlows := [flowTrue 0 1], outgoingFlows := [flowFalse 1 2] },
        { id := 2, name := "done", type := "end-task",
          incomingFlows := [flowFalse 1 2], outgoingFlows := [] } ],
    vars := [] }

/-- Definition with an AND-join task of unregistered type (base `Node`
fallback): task 1 has two incoming flows. -/
def pdJ : ProcessDefinition :=
  { tasks :=
      [ { id := 0, name := "start", type := "start-task",
          incomingFlows := [], outgoingFlows := [flowTrue 0 1] },
        { id := 1, name := "join", type := "task",
          incomingFlows := [flowTrue 0 1, flowTrue 2 1], outgoingFlows := [] } ],
    vars := [] }

/-- A suspended instance of `pdJ`: WAITING with the join node at one of
its two inbound arrivals recorded (the state §8 requires to be durable
across a restart). -/
def iJ : St :=
  { iid := some 7, pid := some 3, defId := some 1, status := Status.waiting,
    vars := [("x", 1)], error := none,
    nodePool := [{ taskId := 1, incomingFlowCompletedNumber := 1 }],
    trace := [], saves := 2 }

/-- A suspended instance of `pdLin`: WAITING with the service node at
full join count in the pool. -/
def wLin : St := startF 9 pdLin none st0c

/-- The state after invoking the service task's stored `complete`
continuation once on the suspended instance. -/
def onceLin : St := completeF 9 pdLin wLin 1 none none

/-- The state after invoking the same stored continuation a second
time, with the same arguments. -/
def twiceLin : St := completeF 9 pdLin onceLin 1 none none

/-! ### Lemmas about the node pool -/

theorem poolSet_lookup_self (pool : List NodeRT) (n : NodeRT) :
    poolLookup (poolSet pool n) n.taskId = some n := by
  induction pool with
  | nil =>
      simp [poolSet, poolLookup, List.find?]
  | cons m rest ih =>
      by_cases h : m.taskId = n.taskId
      · simp [poolSet, poolLookup, h, List.find?]
      · have hb : (m.taskId == n.taskId) = false := by simp [h]
        simp only [poolSet, hb, Bool.false_eq_true, if_false]
        unfold poolLookup at ih ⊢
        rw [List.find?_cons_of_neg _ (by simp [hb])]
        exact ih

theorem poolSet_lookup_other (pool : List NodeRT) (n : NodeRT) (u : Nat)
    (h : u ≠ n.taskId) :
    poolLookup (poolSet pool n) u = poolLookup pool u := by
  have hnu : (n.taskId == u) = false := by simp [Ne.symm h]
  induction pool with
  | nil =>
      simp [poolSet, poolLookup, List.find?, hnu]
  | cons m rest ih =>
      by_cases hm : m.taskId = n.taskId
      · have hmu : (m.taskId == u) = false := by simp [hm, Ne.symm h]
        simp only [poolSet, hm, beq_self_eq_true, if_true]
        unfold poolLookup
        rw [List.find?_cons_of_neg _ (by simp [hnu]),
          List.find?_cons_of_neg _ (by simp [hmu])]
      · have hb : (m.taskId == n.taskId) = false := by simp [hm]
        simp only [poolSet, hb, Bool.false_eq_true, if_false]
        by_cases hmu : m.taskId = u
        · unfold poolLookup
          rw [List.find?_cons_of_pos _ (by simp [hmu]),
            List.find?_cons_of_pos _ (by simp [hmu])]
        · unfold poolLookup at ih ⊢
          rw [List.find?_cons_of_neg _ (by simp [hmu]),
            List.find?_cons_of_neg _ (by simp [hmu])]
          exact ih

theorem poolLookup_append (pool l2 : List NodeRT) (tid : Nat) :
    poolLookup (pool ++ l2) tid = (poolLookup pool tid).or (poolLookup l2 tid) := by
  simp [poolLookup, List.find?_append]

theorem arrive_lookup_self (pool : List NodeRT) (tid : Nat) :
    poolLookup (arrive pool tid) tid
      = some { taskId := tid, incomingFlowCompletedNumber := counterOf pool tid + 1 } := by
  unfold arrive counterOf
  cases h : poolLookup pool tid with
  | some n =>
      obtain ⟨ntid, nc⟩ := n
      have h' : List.find? (fun m => m.taskId == tid) pool = some ⟨ntid, nc⟩ := h
      have hid : ntid = tid := by simpa using List.find?_some h'
      subst hid
      exact poolSet_lookup_self pool ⟨ntid, nc + 1⟩
  | none =>
      rw [poolLookup_append, h]
      simp [poolLookup, List.find?]

theorem arrive_lookup_other (pool : List NodeRT) (tid u : Nat) (h : u ≠ tid) :
    poolLookup (arrive pool tid) u = poolLookup pool u := by
  unfold arrive
  cases hl : poolLookup pool tid with
  | some n =>
      have hl' : List.find? (fun m => m.taskId == tid) pool = some n := hl
      have hid : n.taskId = tid := by simpa using List.find?_some hl'
      exact poolSet_lookup_other pool _ u (by simp [hid, h])
  | none =>
      rw [poolLookup_append]
      have htu : (tid == u) = false := by simp [Ne.symm h]
      have hone : (poolLookup [{ taskId := tid, incomingFlowCompletedNumber := 1 }] u) = none := by
        simp [poolLookup, List.find?, htu]
      rw [hone]
      cases hu : poolLookup pool u <;> simp

/-! ### Unfolding equations for one completion step -/

theorem completeF_succ_some (fuel : Nat) (pd : ProcessDefinition) (st : St)
    (tid : Nat) (e : ErrV) (vars : Option Vars) :
    completeF (Nat.succ fuel) pd st tid (some e) vars
      = emit (changeStatus st Status.failed (some e)) Event.endEv := rfl

theorem completeF_succ_none (fuel : Nat) (pd : ProcessDefinition) (st : St)
    (tid : Nat) (vars : Option Vars) :
    completeF (Nat.succ fuel) pd st tid none vars
      = (if (taskOf pd tid).type == "end-task" then
           emit (changeStatus
             ((taskOf pd tid).outgoingFlows.foldl
               (followFlowWith (completeK fuel pd) pd tid) (completeCore st tid vars))
             Status.completed none) Event.endEv
         else
           (taskOf pd tid).outgoingFlows.foldl
             (followFlowWith (completeK fuel pd) pd tid) (completeCore st tid vars)) := rfl

/-! ### Frame lemmas for the primitive state operations -/

theorem completeCore_trace (st : St) (tid : Nat) (vars : Option Vars) :
    (completeCore st tid vars).trace = st.trace ++ [Event.after tid] := by
  cases vars <;> simp [completeCore, emit]

theorem completeCore_saves (st : St) (tid : Nat) (vars : Option Vars) :
    (completeCore st tid vars).saves = st.saves := by
  cases vars <;> simp [completeCore, emit]

theorem completeCore_pool (st : St) (tid : Nat) (vars : Option Vars) :
    (completeCore st tid vars).nodePool = poolRemove st.nodePool tid := by
  cases vars <;> simp [completeCore, emit]

theorem completeCore_status (st : St) (tid : Nat) (vars : Option Vars) :
    (completeCore st tid vars).status = st.status := by
  cases vars <;> simp [completeCore, emit]

/-! ### The trace only ever grows, and each write bumps `saves` -/

theorem trace_ext_foldl {g : St → Flow → St}
    (hg : ∀ s f, ∃ r, (g s f).trace = s.trace ++ r) :
    ∀ (l : List Flow) (s : St), ∃ r, (l.foldl g s).trace = s.trace ++ r := by
  intro l
  induction l with
  | nil => intro s; exact ⟨[], by simp⟩
  | cons f fs ih =>
      intro s
      obtain ⟨r1, h1⟩ := hg s f
      obtain ⟨r2, h2⟩ := ih (g s f)
      exact ⟨r1 ++ r2, by simp [List.foldl_cons, h2, h1]⟩

theorem trace_ext_executeWith {K : St → Nat → St}
    (hK : ∀ s t, ∃ r, (K s t).trace = s.trace ++ r)
    (pd : ProcessDefinition) (s : St) (t : Nat) :
    ∃ r, (executeWith K pd s t).trace = s.trace ++ Event.before t :: r := by
  unfold executeWith
  cases hnk : nodeKind (taskOf pd t).type
  case service => exact ⟨[], by simp [changeStatus, save, emit]⟩
  case base =>
      obtain ⟨r, hr⟩ := hK (emit s (Event.before t)) t
      refine ⟨r, ?_⟩
      show (K (emit s (Event.before t)) t).trace = s.trace ++ Event.before t :: r
      rw [hr]
      simp [emit]
  case decision =>
      obtain ⟨r, hr⟩ := hK (emit s (Event.before t)) t
      refine ⟨r, ?_⟩
      show (K (emit s (Event.before t)) t).trace = s.trace ++ Event.before t :: r
      rw [hr]
      simp [emit]

theorem trace_ext_followFlowWith {K : St → Nat → St}
    (hK : ∀ s t, ∃ r, (K s t).trace = s.trace ++ r)
    (pd : ProcessDefinition) (curTid : Nat) (s : St) (f : Flow) :
    ∃ r, (followFlowWith K pd curTid s f).trace = s.trace ++ r := by
  unfold followFlowWith
  dsimp only
  split
  · split
    · obtain ⟨r, hr⟩ := trace_ext_executeWith hK pd _ f.toId
      exact ⟨Event.before f.toId :: r, hr⟩
    · split
      · exact ⟨[], by simp [save]⟩
      · exact ⟨[], by simp⟩
  · exact ⟨[], by simp⟩

theorem trace_ext_completeF :
    ∀ (fuel : Nat) (pd : ProcessDefinition) (st : St) (tid : Nat)
      (e : Option ErrV) (v : Option Vars),
    ∃ r, (completeF fuel pd st tid e v).trace = st.trace ++ r := by
  intro fuel
  induction fuel with
  | zero => intro pd st tid e v; exact ⟨[], by simp [completeF]⟩
  | succ n ih =>
      intro pd st tid e v
      cases e with
      | some err =>
          rw [completeF_succ_some]
          exact ⟨[Event.endEv], by simp [emit, changeStatus, save]⟩
      | none =>
          rw [completeF_succ_none]
          have hK : ∀ s t, ∃ r, (completeK n pd s t).trace = s.trace ++ r :=
            fun s t => ih pd s t none none
          obtain ⟨r1, h1⟩ := trace_ext_foldl
            (fun s f => trace_ext_followFlowWith hK pd tid s f)
            (taskOf pd tid).outgoingFlows (completeCore st tid v)
          rw [completeCore_trace] at h1
          split
          · exact ⟨[Event.after tid] ++ r1 ++ [Event.endEv],
              by simp [emit, changeStatus, save, h1]⟩
          · exact ⟨[Event.after tid] ++ r1, by simp [h1]⟩

theorem completeF_after_head (fuel : Nat) (pd : ProcessDefinition) (st : St)
    (tid : Nat) (v : Option Vars) :
    ∃ r, (completeF (Nat.succ fuel) pd st tid none v).trace
      = st.trace ++ Event.after tid :: r := by
  rw [completeF_succ_none]
  have hK : ∀ s t, ∃ r, (completeK fuel pd s t).trace = s.trace ++ r :=
    fun s t => trace_ext_completeF fuel pd s t none none
  obtain ⟨r1, h1⟩ := trace_ext_foldl
    (fun s f => trace_ext_followFlowWith hK pd tid s f)
    (taskOf pd tid).outgoingFlows (completeCore st tid v)
  rw [completeCore_trace] at h1
  split
  · exact ⟨r1 ++ [Event.endEv], by simp [emit, changeStatus, save, h1]⟩
  · exact ⟨r1, by simp [h1]⟩

theorem saves_le_foldl {g : St → Flow → St}
    (hg : ∀ s f, s.saves ≤ (g s f).saves) :
    ∀ (l : List Flow) (s : St), s.saves ≤ (l.foldl g s).saves := by
  intro l
  induction l with
  | nil => intro s; simp
  | cons f fs ih =>
      intro s
      exact Nat.le_trans (hg s f) (ih (g s f))

theorem saves_le_executeWith {K : St → Nat → St}
    (hK : ∀ s t, s.saves ≤ (K s t).saves)
    (pd : ProcessDefinition) (s : St) (t : Nat) :
    s.saves ≤ (executeWith K pd s t).saves := by
  unfold executeWith
  dsimp only
  cases hnk : nodeKind (taskOf pd t).type
  case service => simp [changeStatus, save, emit]
  case base => exact hK (emit s (Event.before t)) t
  case decision => exact hK (emit s (Event.before t)) t

theorem saves_le_followFlowWith {K : St → Nat → St}
    (hK : ∀ s t, s.saves ≤ (K s t).saves)
    (pd : ProcessDefinition) (curTid : Nat) (s : St) (f : Flow) :
    s.saves ≤ (followFlowWith K pd curTid s f).saves := by
  unfold followFlowWith
  dsimp only
  split
  · split
    · exact saves_le_executeWith hK pd
        { s with nodePool := arrive s.nodePool f.toId } f.toId
    · split
      · simp [save]
      · simp
  · simp

theorem saves_le_completeF :
    ∀ (fuel : Nat) (pd : ProcessDefinition) (st : St) (tid : Nat)
      (e : Option ErrV) (v : Option Vars),
    st.saves ≤ (completeF fuel pd st tid e v).saves := by
  intro fuel
  induction fuel with
  | zero => intro pd st tid e v; simp [completeF]
  | succ n ih =>
      intro pd st tid e v
      cases e with
      | some err =>
          rw [completeF_succ_some]
          simp [emit, changeStatus, save]
      | none =>
          rw [completeF_succ_none]
          have hK : ∀ s t, s.saves ≤ (completeK n pd s t).saves :=
            fun s t => ih pd s t none none
          have hfold := saves_le_foldl
            (fun s f => saves_le_followFlowWith hK pd tid s f)
            (taskOf pd tid).outgoingFlows (completeCore st tid v)
          rw [completeCore_saves] at hfold
          split
          · simp only [emit, changeStatus, save]
            omega
          · exact hfold

/-! ### Characterization of one outgoing-flow step -/

theorem followFlowWith_skip {K : St → Nat → St} (pd : ProcessDefinition)
    (curTid : Nat) (s : St) (f : Flow)
    (h : canFollowOutgoingFlow pd curTid s.vars f = false) :
    followFlowWith K pd curTid s f = s := by
  unfold followFlowWith
  rw [if_neg (by simp [h])]

theorem followFlowWith_follow {K : St → Nat → St} (pd : ProcessDefinition)
    (curTid : Nat) (s : St) (f : Flow)
    (h : canFollowOutgoingFlow pd curTid s.vars f = true) :
    followFlowWith K pd curTid s f
      = (if canExecuteNode pd
            { taskId := f.toId,
              incomingFlowCompletedNumber := counterOf s.nodePool f.toId + 1 } then
           executeWith K pd { s with nodePool := arrive s.nodePool f.toId } f.toId
         else if s.status == Status.waiting then
           save { s with nodePool := arrive s.nodePool f.toId }
         else { s with nodePool := arrive s.nodePool f.toId }) := by
  unfold followFlowWith
  rw [if_pos h]
  dsimp only
  rw [arrive_lookup_self]
  rfl

/-! ### Claim theorems -/

/-- Claim C3: for every node `n`, `canExecuteNode()` returns true if and
only if `n.incomingFlowCompletedNumber` equals the number of incoming
flows of `n`'s task (AND-join on all incoming flows). -/
theorem c3_and_join (pd : ProcessDefinition) (n : NodeRT) :
    canExecuteNode pd n = true
      ↔ n.incomingFlowCompletedNumber = (taskOf pd n.taskId).incomingFlows.length := by
  simp [canExecuteNode]

/-- Witness for C3 at a concrete node of the linear definition. -/
theorem c3_and_join_w :
    canExecuteNode pdLin { taskId := 1, incomingFlowCompletedNumber := 1 } = true
      ↔ (1 : Nat) = (taskOf pdLin 1).incomingFlows.length :=
  c3_and_join pdLin { taskId := 1, incomingFlowCompletedNumber := 1 }

/-- Claim C4: completing with a non-null error `e` makes the status
FAILED with that error, persists once, emits exactly the `end` event
(no `after`), and changes nothing else: the node pool (the failed node
is not removed) and the variables are untouched, and no outgoing flow
is followed. -/
theorem c4_error_path (fuel : Nat) (pd : ProcessDefinition) (st : St)
    (tid : Nat) (e : ErrV) (vars : Option Vars) :
    (completeF (Nat.succ fuel) pd st tid (some e) vars).status = Status.failed
    ∧ (completeF (Nat.succ fuel) pd st tid (some e) vars).error = some e
    ∧ (completeF (Nat.succ fuel) pd st tid (some e) vars).trace
        = st.trace ++ [Event.endEv]
    ∧ (completeF (Nat.succ fuel) pd st tid (some e) vars).nodePool = st.nodePool
    ∧ (completeF (Nat.succ fuel) pd st tid (some e) vars).vars = st.vars
    ∧ (completeF (Nat.succ fuel) pd st tid (some e) vars).saves = st.saves + 1 := by
  rw [completeF_succ_some]
  simp [emit, changeStatus, save]

/-- Claim C9: `clearPool()` removes from the live pool exactly the
instances whose status is WAITING or COMPLETED; all others (RUNNING,
FAILED, and also NEW) remain. -/
theorem c9_clear_pool (pool : List PoolInst) (inst : PoolInst) :
    inst ∈ clearPool pool
      ↔ inst ∈ pool
        ∧ inst.status ≠ Status.waiting ∧ inst.status ≠ Status.completed := by
  simp [clearPool, List.mem_filter, not_or]

/-- Witness for C9: a RUNNING instance is retained by `clearPool`. -/
theorem c9_clear_pool_w :
    ({ id := 1, status := Status.running } : PoolInst)
        ∈ clearPool [{ id := 1, status := Status.running },
                      { id := 2, status := Status.waiting }]
      ↔ ({ id := 1, status := Status.running } : PoolInst)
          ∈ [({ id := 1, status := Status.running } : PoolInst),
             { id := 2, status := Status.waiting }]
        ∧ ({ id := 1, status := Status.running } : PoolInst).status ≠ Status.waiting
        ∧ ({ id := 1, status := Status.running } : PoolInst).status ≠ Status.completed :=
  c9_clear_pool
    [{ id := 1, status := Status.running }, { id := 2, status := Status.waiting }]
    { id := 1, status := Status.running }

/-- Claim C10: `changeStatus` unconditionally assigns the `error`
field — with the argument omitted (`none`) any previously recorded
error is erased — sets the status, persists once, and leaves every
other instance field unchanged. -/
theorem c10_change_status (st : St) (s : Status) (e : Option ErrV) :
    (changeStatus st s e).status = s
    ∧ (changeStatus st s e).error = e
    ∧ (changeStatus st s none).error = none
    ∧ (changeStatus st s e).vars = st.vars
    ∧ (changeStatus st s e).nodePool = st.nodePool
    ∧ (changeStatus st s e).trace = st.trace
    ∧ (changeStatus st s e).iid = st.iid
    ∧ (changeStatus st s e).defId = st.defId
    ∧ (changeStatus st s e).saves = st.saves + 1 := by
  simp [changeStatus, save]

/-- Claim C5: when a task of type `end-task` completes without error,
the instance status becomes COMPLETED, the `end` event is the last
event emitted, and at least one further persistence write is issued. -/
theorem c5_end_task (fuel : Nat) (pd : ProcessDefinition) (st : St)
    (tid : Nat) (vars : Option Vars)
    (h : (taskOf pd tid).type = "end-task") :
    (completeF (Nat.succ fuel) pd st tid none vars).status = Status.completed
    ∧ (completeF (Nat.succ fuel) pd st tid none vars).trace.getLast?
        = some Event.endEv
    ∧ st.saves + 1 ≤ (completeF (Nat.succ fuel) pd st tid none vars).saves := by
  have hb : ((taskOf pd tid).type == "end-task") = true := by simp [h]
  rw [completeF_succ_none, if_pos hb]
  refine ⟨by simp [emit, changeStatus, save], ?_, ?_⟩
  · simp [emit]
  · have hK : ∀ s t, s.saves ≤ (completeK fuel pd s t).saves :=
      fun s t => saves_le_completeF fuel pd s t none none
    have hfold := saves_le_foldl
      (fun s f => saves_le_followFlowWith hK pd tid s f)
      (taskOf pd tid).outgoingFlows (completeCore st tid vars)
    rw [completeCore_saves] at hfold
    simp only [emit, changeStatus, save]
    omega

/-- Witness for C5 at the end task of the linear definition. -/
theorem c5_end_task_w :
    (completeF 4 pdLin wLin 2 none none).status = Status.completed
    ∧ (completeF 4 pdLin wLin 2 none none).trace.getLast? = some Event.endEv
    ∧ wLin.saves + 1 ≤ (completeF 4 pdLin wLin 2 none none).saves :=
  c5_end_task 3 pdLin wLin 2 none (by decide)

/-- Counterexample to claim C6 as stated: running `pdSvc` from a fresh
instance reaches status COMPLETED (the end branch finishes) while the
suspended service node is still in `nodePool`, so COMPLETED does not
imply an empty pool. -/
theorem c6_completed_pool_cex :
    (startF 9 pdSvc none st0c).status = Status.completed
    ∧ (startF 9 pdSvc none st0c).nodePool ≠ [] := by decide

/-- Claim C6 (amended): when the instance is marked COMPLETED by the
completion of an end task (a task with no outgoing flows), the
completed node itself has been removed from `nodePool`; the rest of the
pool — stalled joins or suspended service nodes of other branches — is
left as it was, so the pool need not be empty. -/
theorem c6_completed_pool_amended (fuel : Nat) (pd : ProcessDefinition)
    (st : St) (tid : Nat) (vars : Option Vars)
    (h1 : (taskOf pd tid).type = "end-task")
    (h2 : (taskOf pd tid).outgoingFlows = []) :
    (completeF (Nat.succ fuel) pd st tid none vars).status = Status.completed
    ∧ (completeF (Nat.succ fuel) pd st tid none vars).nodePool
        = poolRemove st.nodePool tid := by
  have hb : ((taskOf pd tid).type == "end-task") = true := by simp [h1]
  rw [completeF_succ_none, h2, if_pos hb]
  simp only [List.foldl_nil]
  exact ⟨by simp [emit, changeStatus, save],
    by simp [emit, changeStatus, save, completeCore_pool]⟩

/-- Witness for the amended C6 at the end task of the linear
definition. -/
theorem c6_completed_pool_amended_w :
    (completeF 4 pdLin wLin 2 none none).status = Status.completed
    ∧ (completeF 4 pdLin wLin 2 none none).nodePool = poolRemove wLin.nodePool 2 :=
  c6_completed_pool_amended 3 pdLin wLin 2 none (by decide) (by rfl)

/-- Claim C7: when a node executes, `before(task)` is emitted first; a
synchronous (non-service) node then runs its completion, which emits
`after(task)` next, and only after that any successor events — so
`before(T)` precedes `after(T)`, and `after(T)` precedes the `before`
of every successor executed by `T`'s completion.  A service node
suspends after its `before`, its `after` being appended only by the
later continuation invocation. -/
theorem c7_event_order (fuel : Nat) (pd : ProcessDefinition) (st : St)
    (tid : Nat) (hf : 0 < fuel) :
    (nodeKind (taskOf pd tid).type ≠ NodeKind.service →
      ∃ r, (executeF fuel pd st tid).trace
        = st.trace ++ Event.before tid :: Event.after tid :: r)
    ∧ (nodeKind (taskOf pd tid).type = NodeKind.service →
      (executeF fuel pd st tid).trace = st.trace ++ [Event.before tid]) := by
  obtain ⟨n, rfl⟩ : ∃ n, fuel = n + 1 := ⟨fuel - 1, by omega⟩
  constructor
  · intro hns
    unfold executeF executeWith
    cases hnk : nodeKind (taskOf pd tid).type
    case service => exact absurd hnk hns
    case base =>
        obtain ⟨r, hr⟩ :=
          completeF_after_head n pd (emit st (Event.before tid)) tid none
        refine ⟨r, ?_⟩
        show (completeF (Nat.succ n) pd (emit st (Event.before tid)) tid
            none none).trace
          = st.trace ++ Event.before tid :: Event.after tid :: r
        rw [hr]
        simp [emit]
    case decision =>
        obtain ⟨r, hr⟩ :=
          completeF_after_head n pd (emit st (Event.before tid)) tid none
        refine ⟨r, ?_⟩
        show (completeF (Nat.succ n) pd (emit st (Event.before tid)) tid
            none none).trace
          = st.trace ++ Event.before tid :: Event.after tid :: r
        rw [hr]
        simp [emit]
  · intro hs
    unfold executeF executeWith
    rw [hs]
    simp [changeStatus, save, emit]

/-- Witness for C7 at the end task of the linear definition. -/
theorem c7_event_order_w :
    ∃ r, (executeF 2 pdLin wLin 2).trace
      = wLin.trace ++ Event.before 2 :: Event.after 2 :: r :=
  (c7_event_order 2 pdLin wLin 2 (by decide)).1 (by decide)

/-- Counterexample to claim C8 as stated: invoking the service task's
stored `complete` continuation a second time with the same arguments
changes the observable state again — the emitted event sequence after
two invocations differs from the sequence after one (and the first
invocation had already completed the instance). -/
theorem c8_idem_cex :
    twiceLin.trace ≠ onceLin.trace ∧ onceLin.status = Status.completed := by
  decide

/-- Claim C8 (amended): a second invocation of the stored `complete`
continuation is not a no-op: every error-free invocation of
`Node.prototype.complete` appends a fresh `after(task)` event and
re-runs outgoing-flow propagation, so the emitted event log strictly
grows — the code has no first-call-wins guard. -/
theorem c8_idem_amended (fuel : Nat) (pd : ProcessDefinition) (st : St)
    (tid : Nat) (v : Option Vars) :
    (completeF (Nat.succ fuel) pd st tid none v).trace ≠ st.trace
    ∧ ∃ r, (completeF (Nat.succ fuel) pd st tid none v).trace
        = st.trace ++ Event.after tid :: r := by
  obtain ⟨r, hr⟩ := completeF_after_head fuel pd st tid v
  refine ⟨?_, ⟨r, hr⟩⟩
  rw [hr]
  intro hcontra
  have hlen := congrArg List.length hcontra
  simp at hlen

/-- Witness for the amended C8: the second invocation on the completed
linear instance appends events again. -/
theorem c8_idem_amended_w :
    (completeF 9 pdLin onceLin 1 none none).trace ≠ onceLin.trace
    ∧ ∃ r, (completeF 9 pdLin onceLin 1 none none).trace
        = onceLin.trace ++ Event.after 1 :: r :=
  c8_idem_amended 8 pdLin onceLin 1 none

/-- Claim C2: one iteration of the outgoing-flow loop of `complete`.
The flow is skipped (the state is returned unchanged) exactly when
`canFollowOutgoingFlow` is false.  Otherwise the arrival step holds:
the successor node for `f.to` carries the previous pool counter (0 when
it was newly constructed and inserted) incremented by one, every other
pool entry is untouched, the successor is executed synchronously —
its `before` event is emitted — exactly when its join condition then
holds, and when the join condition does not hold the resulting pool is
exactly the arrival pool. -/
theorem c2_follow_flows (fuel : Nat) (pd : ProcessDefinition) (tid : Nat)
    (s : St) (f : Flow) :
    (canFollowOutgoingFlow pd tid s.vars f = false →
      followFlow fuel pd tid s f = s)
    ∧ (canFollowOutgoingFlow pd tid s.vars f = true →
      poolLookup (arrive s.nodePool f.toId) f.toId
        = some { taskId := f.toId,
                 incomingFlowCompletedNumber := counterOf s.nodePool f.toId + 1 }
      ∧ (∀ u, u ≠ f.toId →
          poolLookup (arrive s.nodePool f.toId) u = poolLookup s.nodePool u)
      ∧ ((∃ r, (followFlow fuel pd tid s f).trace
            = s.trace ++ Event.before f.toId :: r)
          ↔ canExecuteNode pd
              { taskId := f.toId,
                incomingFlowCompletedNumber :=
                  counterOf s.nodePool f.toId + 1 } = true)
      ∧ (canExecuteNode pd
            { taskId := f.toId,
              incomingFlowCompletedNumber := counterOf s.nodePool f.toId + 1 }
            = false →
          (followFlow fuel pd tid s f).nodePool = arrive s.nodePool f.toId)) := by
  constructor
  · intro h
    exact followFlowWith_skip pd tid s f h
  · intro h
    refine ⟨arrive_lookup_self s.nodePool f.toId,
      fun u hu => arrive_lookup_other s.nodePool f.toId u hu, ?_, ?_⟩
    · have heq := followFlowWith_follow (K := completeK fuel pd) pd tid s f h
      cases hce : canExecuteNode pd
          { taskId := f.toId,
            incomingFlowCompletedNumber := counterOf s.nodePool f.toId + 1 }
      · rw [show followFlow fuel pd tid s f
            = followFlowWith (completeK fuel pd) pd tid s f from rfl, heq,
          if_neg (by simp [hce])]
        have htr : (if s.status == Status.waiting then
            save { s with nodePool := arrive s.nodePool f.toId }
            else { s with nodePool := arrive s.nodePool f.toId }).trace
              = s.trace := by
          split <;> simp [save]
        constructor
        · intro hex
          obtain ⟨r, hr⟩ := hex
          rw [htr] at hr
          have hlen := congrArg List.length hr
          simp at hlen
        · intro hc
          exact absurd hc (by simp [hce])
      · rw [show followFlow fuel pd tid s f
            = followFlowWith (completeK fuel pd) pd tid s f from rfl, heq,
          if_pos hce]
        have hK : ∀ s t, ∃ r, (completeK fuel pd s t).trace = s.trace ++ r :=
          fun s t => trace_ext_completeF fuel pd s t none none
        obtain ⟨r, hr⟩ := trace_ext_executeWith hK pd
          { s with nodePool := arrive s.nodePool f.toId } f.toId
        exact ⟨fun _ => rfl, fun _ => ⟨r, hr⟩⟩
    · intro hce
      have heq := followFlowWith_follow (K := completeK fuel pd) pd tid s f h
      rw [show followFlow fuel pd tid s f
          = followFlowWith (completeK fuel pd) pd tid s f from rfl, heq,
        if_neg (by simp [hce])]
      split <;> simp [save]

/-- Witness for C2: the decision's false-guarded flow is skipped, and
the followable flow out of the start task executes its successor (whose
join condition holds at one arrival). -/
theorem c2_follow_flows_w :
    followFlow 3 pdDec 1 st0c (flowFalse 1 2) = st0c
    ∧ ∃ r, (followFlow 3 pdLin 0 st0c (flowTrue 0 1)).trace
        = st0c.trace ++ Event.before 1 :: r :=
  ⟨(c2_follow_flows 3 pdDec 1 st0c (flowFalse 1 2)).1 (by decide),
   (((c2_follow_flows 3 pdLin 0 st0c (flowTrue 0 1)).2 (by decide)).2.2.1).2
     (by decide)⟩

/-- Claim C1 evaluated at a failing input (code bug): serializing the
suspended AND-join instance `iJ` — whose join node has recorded one of
its two inbound arrivals — and deserializing it produces a node pool
with the same membership but with `incomingFlowCompletedNumber` reset
to 0 instead of the serialized 1, while status and variables survive
the round trip.  `Node.deserialize` reconstructs nodes through
`createNode` (counter 0) and never reads the serialized counter, even
though `Node.prototype.serialize` writes it. -/
theorem c1_roundtrip_eval :
    (deserializeInst pdJ (serializeInst iJ)).nodePool
      = [{ taskId := 1, incomingFlowCompletedNumber := 0 }]
    ∧ iJ.nodePool = [{ taskId := 1, incomingFlowCompletedNumber := 1 }]
    ∧ (deserializeInst pdJ (serializeInst iJ)).status = iJ.status
    ∧ (deserializeInst pdJ (serializeInst iJ)).vars = iJ.vars
    ∧ (deserializeInst pdJ (serializeInst iJ)) ≠ iJ := by decide

end ProcEngine
